import Mathlib

/-!
Verification development for the zk-verify-outmine relay service.

The embedded code comes from:
* `src/zkTransactionQueue.ts` — the `TransactionQueue` class (pending list,
  single-worker processing loop, retry policy, per-item timeout callback,
  clearQueue / shutdown);
* `src/zkTransactionUtils.ts` — `isNonceConflictError`,
  `categorizeTransactionError`;
* `src/utils/zkFailureLogger.ts` — `categorizeError`;
* `server.ts` — `attemptReconnection` (exponential backoff with cap) and the
  connectivity gate of the `POST /verify-score` handler.

JavaScript strings are modelled as Lean `String`; `String.prototype.includes`
and `String.prototype.toLowerCase` are modelled by executable functions below.
The queue (an `async` class running on the single-threaded Node event loop) is
modelled as a state machine: every synchronous section of the TypeScript code
between two `await` suspension points becomes one atomic step of an explicit
step relation `QStep`.
-/

/-- Model of JavaScript `needle`-starts-at-head matching used by substring
search: `charsStartWith hay pat` is true iff `pat` is a prefix of `hay`. -/
def charsStartWith : List Char → List Char → Bool
  | _, [] => true
  | [], _ :: _ => false
  | c :: cs, p :: ps => c == p && charsStartWith cs ps

/-- Model of substring search: true iff `pat` occurs contiguously in `hay`. -/
def charsContain (hay pat : List Char) : Bool :=
  match hay with
  | [] => charsStartWith [] pat
  | _ :: t => charsStartWith hay pat || charsContain t pat

/-- Model of JavaScript `hay.includes(pat)`. -/
def strIncludes (hay pat : String) : Bool :=
  charsContain hay.data pat.data

/-- Model of JavaScript `s.toLowerCase()` (the patterns involved are ASCII). -/
def strToLower (s : String) : String :=
  ⟨s.data.map Char.toLower⟩

/-- `TransactionQueue.isNonceConflict` from `src/zkTransactionQueue.ts`
(lines 210–217).  Case-sensitive `String.prototype.includes` checks, exactly
as in the source; note the bare `'Invalid Transaction'` disjunct. -/
def isNonceConflict (errorMessage : String) : Bool :=
  strIncludes errorMessage "Priority is too low" ||
  strIncludes errorMessage "1014" ||
  strIncludes errorMessage "Transaction is already in the pool" ||
  strIncludes errorMessage "Invalid Transaction"

/-- `isNonceConflictError` from `src/zkTransactionUtils.ts` (lines 143–152):
lower-cases the message first, and also matches a bare `'invalid transaction'`
as well as any message containing `'nonce'`. -/
def isNonceConflictError (message : String) : Bool :=
  let m := strToLower message
  strIncludes m "priority is too low" ||
  strIncludes m "1014" ||
  strIncludes m "transaction is already in the pool" ||
  strIncludes m "invalid transaction" ||
  strIncludes m "nonce"

/-- The closed failure-category enumeration returned by both classifiers. -/
inductive ErrorCategory
  | VALIDATION_ERROR
  | SUBMISSION_ERROR
  | VERIFICATION_FAILED
  | TRANSACTION_ERROR
  | NETWORK_ERROR
  | UNKNOWN_ERROR
deriving Repr, DecidableEq

/-- `categorizeTransactionError` from `src/zkTransactionUtils.ts`
(lines 154–193), for a non-null error with message `message`: a chain of
case-insensitive substring tests, first match winning, in source order. -/
def categorizeTransactionError (message : String) : ErrorCategory :=
  let m := strToLower message
  if strIncludes m "priority is too low" || strIncludes m "1014" then
    .TRANSACTION_ERROR
  else if strIncludes m "invalid transaction" then
    .TRANSACTION_ERROR
  else if strIncludes m "insufficient balance" || strIncludes m "payment" then
    .TRANSACTION_ERROR
  else if strIncludes m "network" || strIncludes m "connection" then
    .NETWORK_ERROR
  else if strIncludes m "timeout" then
    .NETWORK_ERROR
  else if strIncludes m "proof" || strIncludes m "verification" then
    .VERIFICATION_FAILED
  else if strIncludes m "missing" || strIncludes m "invalid" then
    .VALIDATION_ERROR
  else if strIncludes m "submission" || strIncludes m "session" then
    .SUBMISSION_ERROR
  else
    .UNKNOWN_ERROR

/-- `categorizeError` from `src/utils/zkFailureLogger.ts` (lines 46–66): the
logging-side classifier, with a different rule order (missing/invalid first). -/
def categorizeError (message : String) : ErrorCategory :=
  let m := strToLower message
  if strIncludes m "missing" || strIncludes m "invalid" then
    .VALIDATION_ERROR
  else if strIncludes m "verification" || strIncludes m "proof" then
    .VERIFICATION_FAILED
  else if strIncludes m "transaction" || strIncludes m "balance" then
    .TRANSACTION_ERROR
  else if strIncludes m "network" || strIncludes m "timeout" || strIncludes m "connection" then
    .NETWORK_ERROR
  else if strIncludes m "submission" || strIncludes m "session" then
    .SUBMISSION_ERROR
  else
    .UNKNOWN_ERROR

/-- `MAX_RECONNECTION_ATTEMPTS` from `server.ts` line 20. -/
def MAX_RECONNECTION_ATTEMPTS : Nat := 10

/-- `BASE_RECONNECT_DELAY` from `server.ts` line 21. -/
def BASE_RECONNECT_DELAY : Nat := 1000

/-- The backoff delay computed in `attemptReconnection` (`server.ts`
lines 108–111) as a function of the attempt counter value after its
increment: `min(BASE_RECONNECT_DELAY * 2^(attempt-1), 30000)`. -/
def reconnectDelay (attempt : Nat) : Nat :=
  min (BASE_RECONNECT_DELAY * 2 ^ (attempt - 1)) 30000

/-- The two module-level variables of `server.ts` driving reconnection. -/
structure ReconnState where
  isReconnecting : Bool
  reconnectionAttempts : Nat
deriving Repr, DecidableEq

/-- What the synchronous prefix of `attemptReconnection` (up to the backoff
`await`) does: skip (already reconnecting), give up (budget exhausted), or
increment the counter and start waiting for the computed delay. -/
inductive ReconnAction
  | skipped
  | gaveUp
  | waiting (delayMs : Nat)
deriving Repr, DecidableEq

/-- `attemptReconnection` from `server.ts` (lines 94–115): the guard
`isReconnecting`, the `reconnectionAttempts >= MAX_RECONNECTION_ATTEMPTS`
give-up check, then `isReconnecting = true`, `reconnectionAttempts++`, and the
backoff wait for `min(BASE_RECONNECT_DELAY * 2^(attempts-1), 30000)` ms. -/
def attemptReconnection (s : ReconnState) : ReconnState × ReconnAction :=
  if s.isReconnecting then
    (s, .skipped)
  else if s.reconnectionAttempts ≥ MAX_RECONNECTION_ATTEMPTS then
    (s, .gaveUp)
  else
    let attempts := s.reconnectionAttempts + 1
    (⟨true, attempts⟩, .waiting (reconnectDelay attempts))

/-- Outcome of the connectivity gate of the `POST /verify-score` handler. -/
inductive SubmitGateDecision
  | serviceUnavailable
  | enqueueToQueue
deriving Repr, DecidableEq

/-- The gate of `fastify.post("/verify-score")` in `server.ts`
(lines 315–341): `if (!transactionQueue)` reply 503; `if (!zkSession ||
!zkSession.provider.isConnected)` reply 503 (in both the reconnecting and the
not-reconnecting branch) — in neither case is `transactionQueue.submit`
reached; only otherwise is the request handed to the queue.
`sessionConnected` models `zkSession !== null && zkSession.provider.isConnected`. -/
def verifyScoreGate (queueInitialized sessionConnected : Bool) : SubmitGateDecision :=
  if queueInitialized = false then
    .serviceUnavailable
  else if sessionConnected = false then
    .serviceUnavailable
  else
    .enqueueToQueue

/-- `QueueConfig` from `src/zkTransactionQueue.ts` (lines 34–39). -/
structure QueueConfig where
  maxConcurrent : Nat
  retryAttempts : Nat
  retryDelay : Nat
  timeout : Nat
deriving Repr, DecidableEq

/-- `QueueItem` from `src/zkTransactionQueue.ts` (lines 3–16), restricted to
the fields that drive control flow.  The id (`tx_${Date.now()}_${random}` in
the source, unique with negligible collision probability) is modelled as the
value of a fresh-id counter, so that id order is submission order. -/
structure QueueItem where
  id : Nat
  timestamp : Nat
  retryCount : Nat
  maxRetries : Nat
deriving Repr, DecidableEq

/-- The caller-visible settlement occurrences of one submission: the
`completed_${id}` emission (resolves the caller's promise), the
`failed_${id}` emission (rejects it with the error), and the rejection made
by the per-item timeout callback when it finds the item still pending. -/
inductive SettleEvent
  | completed (id : Nat)
  | failed (id : Nat) (errorMsg : String)
  | timeoutReject (id : Nat)
deriving Repr, DecidableEq

/-- The submission id an event settles. -/
def SettleEvent.eid : SettleEvent → Nat
  | .completed i => i
  | .failed i _ => i
  | .timeoutReject i => i

/-- Whether the event is a terminal outcome delivered by the processing loop
(a processed or failed item), as opposed to a timeout rejection. -/
def SettleEvent.isTerminal : SettleEvent → Bool
  | .completed _ => true
  | .failed _ _ => true
  | .timeoutReject _ => false

/-- One invocation of `processQueue` that has passed the entry guard, at one
of its two suspension points: `running it` while `await executeTransaction`
is in flight for `it` (the active transaction), `idle` at the loop condition
or inside the retry-delay `await`. -/
inductive WorkerPhase
  | running (it : QueueItem)
  | idle
deriving Repr, DecidableEq

/-- The mutable fields of a `TransactionQueue` instance, plus the trace of
settlement events emitted so far and the fresh-id counter.  `workers` lists
the `processQueue` invocations currently past the guard — kept as a list
(rather than an option) precisely so that "at most one worker" is a theorem
about the `isProcessing` guard, not a modelling assumption. -/
structure QueueState where
  queue : List QueueItem
  workers : List WorkerPhase
  isProcessing : Bool
  isShuttingDown : Bool
  totalProcessed : Nat
  totalFailed : Nat
  lastCompletedTimestamp : Option Nat
  nextId : Nat
  events : List SettleEvent
deriving Repr, DecidableEq

/-- The state of a freshly constructed `TransactionQueue`. -/
def initState : QueueState :=
  ⟨[], [], false, false, 0, 0, none, 0, []⟩

/-- The item of a worker phase, when it is in flight. -/
def runningItem : WorkerPhase → Option QueueItem
  | .running it => some it
  | .idle => none

/-- The `activeTransaction` snapshot: the source keeps a field that is set to
the item's info exactly when an attempt is in flight and reset to `null` on
every other suspension point, so it equals the in-flight worker's item. -/
def activeTransaction (s : QueueState) : Option QueueItem :=
  s.workers.findSome? runningItem

/-- Ids of the pending items, in queue order. -/
def queueIds (s : QueueState) : List Nat :=
  s.queue.map (·.id)

/-- Ids in flight in a worker list. -/
def runningIdsW (ws : List WorkerPhase) : List Nat :=
  ws.filterMap (fun w => (runningItem w).map (·.id))

/-- Ids of the items whose submission attempt is currently in flight. -/
def runningIds (s : QueueState) : List Nat :=
  runningIdsW s.workers

/-- Ids of terminal (processed or failed) outcomes, in emission order. -/
def terminalIds (s : QueueState) : List Nat :=
  (s.events.filter (·.isTerminal)).map SettleEvent.eid

/-- The enqueue part of `submit` (`src/zkTransactionQueue.ts` lines 113–127):
a fresh item with `retryCount: 0` and `maxRetries: config.retryAttempts` is
pushed to the tail of the pending list. -/
def enqueueState (cfg : QueueConfig) (now : Nat) (s : QueueState) : QueueState :=
  { s with queue := s.queue ++ [⟨s.nextId, now, 0, cfg.retryAttempts⟩],
           nextId := s.nextId + 1 }

/-- The synchronous head of `submit` (`src/zkTransactionQueue.ts`
lines 109–127): throw `'Queue is shutting down, cannot accept new
submissions'` if the shutdown flag is set, otherwise enqueue and return the
new item's id. -/
def submitCall (cfg : QueueConfig) (now : Nat) (s : QueueState) :
    Except String (QueueState × Nat) :=
  if s.isShuttingDown then
    .error "Queue is shutting down, cannot accept new submissions"
  else
    .ok (enqueueState cfg now s, s.nextId)

/-- `clearQueue` (`src/zkTransactionQueue.ts` lines 90–96): records the
pending count and whether an active transaction exists, empties the pending
list only, and returns `{cleared, activeInterrupted}`. -/
def clearQueueCall (s : QueueState) : QueueState × Nat × Bool :=
  ({ s with queue := [] }, s.queue.length, (activeTransaction s).isSome)

/-- The synchronous head of `shutdown` (`src/zkTransactionQueue.ts`
line 224): set the shutting-down flag; the rest of `shutdown` only waits for
`isProcessing` to clear and removes listeners. -/
def shutdownBegin (s : QueueState) : QueueState :=
  { s with isShuttingDown := true }

/-- The per-item timeout callback (`src/zkTransactionQueue.ts`
lines 132–138): look the id up in the pending list; only if it is still
there, splice it out and reject the caller's promise with the timeout error;
otherwise do nothing. -/
def timeoutFire (s : QueueState) (id : Nat) : QueueState :=
  if s.queue.any (fun i => i.id == id) then
    { s with queue := s.queue.eraseP (fun i => i.id == id),
             events := s.events ++ [.timeoutReject id] }
  else
    s

/-- The success branch of the processing loop (`src/zkTransactionQueue.ts`
lines 175–181): bump the processed counter, record the completion timestamp,
emit `completed_${id}` (resolving the caller). -/
def successUpdate (s : QueueState) (it : QueueItem) (now : Nat) : QueueState :=
  { s with totalProcessed := s.totalProcessed + 1,
           lastCompletedTimestamp := some now,
           events := s.events ++ [.completed it.id] }

/-- The failure branch of the processing loop (`src/zkTransactionQueue.ts`
lines 182–198): if `isNonceConflict(errorMsg) && retryCount < maxRetries`,
increment the item's retry counter and `unshift` it back to the head of the
pending list (no caller-visible settlement); otherwise bump the failed
counter and emit `failed_${id}` (rejecting the caller with the error). -/
def failureUpdate (s : QueueState) (it : QueueItem) (msg : String) : QueueState :=
  if isNonceConflict msg = true ∧ it.retryCount < it.maxRetries then
    { s with queue := { it with retryCount := it.retryCount + 1 } :: s.queue }
  else
    { s with totalFailed := s.totalFailed + 1,
             events := s.events ++ [.failed it.id msg] }

/-- The atomic steps of a `TransactionQueue`: each constructor is one
synchronous section of the TypeScript code between `await` suspension points
(plus the externally-invoked synchronous calls).  The submitter outcome and
error message are chosen arbitrarily by the environment, as is the moment a
per-item timeout fires; `pause`/`resume` are not modelled (no claim involves
them). -/
inductive QStep : QueueState → QueueState → Prop
  | submit (s : QueueState) (cfg : QueueConfig) (now : Nat)
      (h : s.isShuttingDown = false) :
      QStep s (enqueueState cfg now s)
  | beginProcessing (s : QueueState) (it : QueueItem) (rest : List QueueItem)
      (hq : s.queue = it :: rest) (hp : s.isProcessing = false)
      (hs : s.isShuttingDown = false) :
      QStep s { s with queue := rest,
                       workers := .running it :: s.workers,
                       isProcessing := true }
  | nextIteration (s : QueueState) (it : QueueItem) (rest : List QueueItem)
      (pre post : List WorkerPhase)
      (hw : s.workers = pre ++ .idle :: post) (hq : s.queue = it :: rest)
      (hs : s.isShuttingDown = false) :
      QStep s { s with queue := rest, workers := pre ++ .running it :: post }
  | finishSuccess (s : QueueState) (it : QueueItem) (now : Nat)
      (pre post : List WorkerPhase)
      (hw : s.workers = pre ++ .running it :: post) :
      QStep s { successUpdate s it now with workers := pre ++ .idle :: post }
  | finishFailure (s : QueueState) (it : QueueItem) (msg : String)
      (pre post : List WorkerPhase)
      (hw : s.workers = pre ++ .running it :: post) :
      QStep s { failureUpdate s it msg with workers := pre ++ .idle :: post }
  | exitLoop (s : QueueState) (pre post : List WorkerPhase)
      (hw : s.workers = pre ++ .idle :: post)
      (hend : s.queue = [] ∨ s.isShuttingDown = true) :
      QStep s { s with workers := pre ++ post, isProcessing := false }
  | clearQ (s : QueueState) :
      QStep s (clearQueueCall s).1
  | shutdownB (s : QueueState) :
      QStep s (shutdownBegin s)
  | timeoutF (s : QueueState) (id : Nat) :
      QStep s (timeoutFire s id)

/-- States reachable from a freshly constructed queue. -/
def Reachable (s : QueueState) : Prop :=
  Relation.ReflTransGen QStep initState s

/-- The inductive invariant of reachable queue states: at most one
processing-loop invocation is past the `isProcessing` guard; pending ids are
strictly increasing (submission order); an in-flight item precedes every
pending item; terminal outcomes were emitted in strictly increasing id order
and all precede the in-flight and pending items; a timeout-rejected id has
left the queue for good. -/
structure QueueInv (s : QueueState) : Prop where
  wlen : s.workers.length ≤ 1
  wproc : s.isProcessing = false → s.workers = []
  qsorted : (queueIds s).Pairwise (· < ·)
  runLtQueue : ∀ r ∈ runningIds s, ∀ q ∈ queueIds s, r < q
  qLtNext : ∀ q ∈ queueIds s, q < s.nextId
  runLtNext : ∀ r ∈ runningIds s, r < s.nextId
  termSorted : (terminalIds s).Pairwise (· < ·)
  termLtQueue : ∀ e ∈ terminalIds s, ∀ q ∈ queueIds s, e < q
  termLtRun : ∀ e ∈ terminalIds s, ∀ r ∈ runningIds s, e < r
  termLtNext : ∀ e ∈ terminalIds s, e < s.nextId
  tmoGone : ∀ id : Nat, SettleEvent.timeoutReject id ∈ s.events →
      id ∉ queueIds s ∧ id ∉ runningIds s ∧ id < s.nextId

/-- A submission id that is gone from the queue: not pending, not in flight,
already allocated, and with no settlement event in the trace.  Such an id can
never settle again — the key fact behind the leaked-promise behaviour of
`clearQueue`. -/
def GoneNoSettle (id : Nat) (s : QueueState) : Prop :=
  id ∉ queueIds s ∧ id ∉ runningIds s ∧ id < s.nextId ∧
  ∀ e ∈ s.events, SettleEvent.eid e ≠ id

@[simp] theorem runningIdsW_nil : runningIdsW ([] : List WorkerPhase) = [] :=
  rfl

@[simp] theorem runningIdsW_running (it : QueueItem) (ws : List WorkerPhase) :
    runningIdsW (WorkerPhase.running it :: ws) = it.id :: runningIdsW ws :=
  rfl

@[simp] theorem runningIdsW_idle (ws : List WorkerPhase) :
    runningIdsW (WorkerPhase.idle :: ws) = runningIdsW ws :=
  rfl

@[simp] theorem runningIdsW_append (a b : List WorkerPhase) :
    runningIdsW (a ++ b) = runningIdsW a ++ runningIdsW b := by
  simp [runningIdsW, List.filterMap_append]

theorem workers_singleton {ws pre post : List WorkerPhase} {w : WorkerPhase}
    (h : ws = pre ++ w :: post) (hlen : ws.length ≤ 1) :
    pre = [] ∧ post = [] := by
  subst h
  simp [List.length_append] at hlen
  exact ⟨List.length_eq_zero.mp (by omega), List.length_eq_zero.mp (by omega)⟩

theorem mem_terminalIds {s : QueueState} {e : SettleEvent}
    (he : e ∈ s.events) (ht : e.isTerminal = true) :
    e.eid ∈ terminalIds s := by
  simp only [terminalIds, List.mem_map, List.mem_filter]
  exact ⟨e, ⟨he, ht⟩, rfl⟩

theorem eraseP_id_not_mem {l : List QueueItem} {a : Nat}
    (hp : (l.map (·.id)).Pairwise (· < ·)) :
    a ∉ (l.eraseP (fun x => x.id == a)).map (·.id) := by
  induction l with
  | nil => simp
  | cons b t ih =>
    have hp' : (∀ x ∈ t, b.id < x.id) ∧ (t.map (·.id)).Pairwise (· < ·) := by
      simpa using hp
    by_cases hb : b.id = a
    · rw [List.eraseP_cons_of_pos (by simp [hb])]
      intro hmem
      rcases List.mem_map.mp hmem with ⟨x, hx, hxa⟩
      have hlt : b.id < x.id := hp'.1 x hx
      omega
    · rw [List.eraseP_cons_of_neg (by simp [hb])]
      simp only [List.map_cons, List.mem_cons]
      rintro (h | h)
      · exact hb h.symm
      · exact ih hp'.2 h

theorem inv_enqueue (cfg : QueueConfig) (now : Nat) {s : QueueState}
    (hs : QueueInv s) : QueueInv (enqueueState cfg now s) := by
  refine ⟨?_, ?_, ?_, ?_, ?_, ?_, ?_, ?_, ?_, ?_, ?_⟩
  · simpa [enqueueState] using hs.wlen
  · simpa [enqueueState] using hs.wproc
  · simp only [queueIds, enqueueState, List.map_append, List.map_cons, List.map_nil]
    refine List.pairwise_append.mpr ⟨hs.qsorted, List.pairwise_singleton _ _, ?_⟩
    intro x hx y hy
    simp only [List.mem_singleton] at hy
    subst hy
    exact hs.qLtNext x hx
  · intro r hr q hq
    simp only [runningIds, enqueueState] at hr
    simp only [queueIds, enqueueState, List.map_append, List.map_cons, List.map_nil,
      List.mem_append, List.mem_singleton] at hq
    rcases hq with hq | hq
    · exact hs.runLtQueue r hr q hq
    · subst hq; exact hs.runLtNext r hr
  · intro q hq
    simp only [queueIds, enqueueState, List.map_append, List.map_cons, List.map_nil,
      List.mem_append, List.mem_singleton] at hq
    simp only [enqueueState]
    rcases hq with hq | hq
    · have := hs.qLtNext q hq; omega
    · omega
  · intro r hr
    simp only [runningIds, enqueueState] at hr
    simp only [enqueueState]
    have := hs.runLtNext r hr; omega
  · simpa [terminalIds, enqueueState] using hs.termSorted
  · intro e he q hq
    simp only [terminalIds, enqueueState] at he
    simp only [queueIds, enqueueState, List.map_append, List.map_cons, List.map_nil,
      List.mem_append, List.mem_singleton] at hq
    rcases hq with hq | hq
    · exact hs.termLtQueue e he q hq
    · subst hq; exact hs.termLtNext e he
  · intro e he r hr
    simp only [terminalIds, enqueueState] at he
    simp only [runningIds, enqueueState] at hr
    exact hs.termLtRun e he r hr
  · intro e he
    simp only [terminalIds, enqueueState] at he
    simp only [enqueueState]
    have := hs.termLtNext e he; omega
  · intro id hid
    simp only [enqueueState] at hid
    obtain ⟨h1, h2, h3⟩ := hs.tmoGone id hid
    refine ⟨?_, ?_, ?_⟩
    · simp only [queueIds, enqueueState, List.map_append, List.map_cons, List.map_nil,
        List.mem_append, List.mem_singleton]
      rintro (h | h)
      · exact h1 h
      · omega
    · simpa [runningIds, enqueueState] using h2
    · simp only [enqueueState]; omega

theorem inv_begin {s : QueueState} {it : QueueItem} {rest : List QueueItem}
    (hq : s.queue = it :: rest) (hp : s.isProcessing = false)
    (hs : QueueInv s) :
    QueueInv { s with queue := rest,
                      workers := .running it :: s.workers,
                      isProcessing := true } := by
  have hw : s.workers = [] := hs.wproc hp
  have hqs : (∀ x ∈ rest.map (·.id), it.id < x) ∧
      (rest.map (·.id)).Pairwise (· < ·) := by
    have := hs.qsorted
    rw [queueIds, hq] at this
    simpa using this
  have hitmem : it.id ∈ queueIds s := by simp [queueIds, hq]
  have hrestsub : ∀ q ∈ rest.map (·.id), q ∈ queueIds s := by
    intro q hqm; simp only [queueIds, hq, List.map_cons, List.mem_cons]
    exact Or.inr hqm
  refine ⟨?_, ?_, ?_, ?_, ?_, ?_, ?_, ?_, ?_, ?_, ?_⟩
  · simp [hw]
  · intro h; simp at h
  · simpa [queueIds] using hqs.2
  · intro r hr q hqm
    simp only [runningIds, hw, runningIdsW_running, runningIdsW_nil,
      List.mem_singleton] at hr
    simp only [queueIds] at hqm
    subst hr
    exact hqs.1 q hqm
  · intro q hqm
    simp only [queueIds] at hqm
    exact hs.qLtNext q (hrestsub q hqm)
  · intro r hr
    simp only [runningIds, hw, runningIdsW_running, runningIdsW_nil,
      List.mem_singleton] at hr
    subst hr
    exact hs.qLtNext it.id hitmem
  · simpa [terminalIds] using hs.termSorted
  · intro e he q hqm
    simp only [terminalIds] at he
    simp only [queueIds] at hqm
    exact hs.termLtQueue e he q (hrestsub q hqm)
  · intro e he r hr
    simp only [terminalIds] at he
    simp only [runningIds, hw, runningIdsW_running, runningIdsW_nil,
      List.mem_singleton] at hr
    subst hr
    exact hs.termLtQueue e he it.id hitmem
  · intro e he
    simp only [terminalIds] at he
    exact hs.termLtNext e he
  · intro id hid
    simp only at hid
    obtain ⟨h1, h2, h3⟩ := hs.tmoGone id hid
    have hne : id ≠ it.id := fun h => h1 (h ▸ hitmem)
    refine ⟨?_, ?_, h3⟩
    · intro h
      simp only [queueIds] at h
      exact h1 (hrestsub id h)
    · simp only [runningIds, hw, runningIdsW_running, runningIdsW_nil,
        List.mem_singleton]
      exact hne

theorem inv_nextIter {s : QueueState} {it : QueueItem} {rest : List QueueItem}
    {pre post : List WorkerPhase}
    (hw : s.workers = pre ++ .idle :: post) (hq : s.queue = it :: rest)
    (hs : QueueInv s) :
    QueueInv { s with queue := rest, workers := pre ++ .running it :: post } := by
  obtain ⟨hpre, hpost⟩ := workers_singleton hw hs.wlen
  subst hpre; subst hpost
  simp only [List.nil_append] at hw ⊢
  have hproc : s.isProcessing = true := by
    by_contra h
    have := hs.wproc (by simpa using Bool.not_eq_true _ ▸ (by simpa using h))
    rw [hw] at this; simp at this
  have hqs : (∀ x ∈ rest.map (·.id), it.id < x) ∧
      (rest.map (·.id)).Pairwise (· < ·) := by
    have := hs.qsorted
    rw [queueIds, hq] at this
    simpa using this
  have hitmem : it.id ∈ queueIds s := by simp [queueIds, hq]
  have hrestsub : ∀ q ∈ rest.map (·.id), q ∈ queueIds s := by
    intro q hqm; simp only [queueIds, hq, List.map_cons, List.mem_cons]
    exact Or.inr hqm
  refine ⟨?_, ?_, ?_, ?_, ?_, ?_, ?_, ?_, ?_, ?_, ?_⟩
  · simp
  · intro h
    simp only at h
    rw [h] at hproc; simp at hproc
  · simpa [queueIds] using hqs.2
  · intro r hr q hqm
    simp only [runningIds, runningIdsW_running, runningIdsW_nil,
      List.mem_singleton] at hr
    simp only [queueIds] at hqm
    subst hr
    exact hqs.1 q hqm
  · intro q hqm
    simp only [queueIds] at hqm
    exact hs.qLtNext q (hrestsub q hqm)
  · intro r hr
    simp only [runningIds, runningIdsW_running, runningIdsW_nil,
      List.mem_singleton] at hr
    subst hr
    exact hs.qLtNext it.id hitmem
  · simpa [terminalIds] using hs.termSorted
  · intro e he q hqm
    simp only [terminalIds] at he
    simp only [queueIds] at hqm
    exact hs.termLtQueue e he q (hrestsub q hqm)
  · intro e he r hr
    simp only [terminalIds] at he
    simp only [runningIds, runningIdsW_running, runningIdsW_nil,
      List.mem_singleton] at hr
    subst hr
    exact hs.termLtQueue e he it.id hitmem
  · intro e he
    simp only [terminalIds] at he
    exact hs.termLtNext e he
  · intro id hid
    simp only at hid
    obtain ⟨h1, h2, h3⟩ := hs.tmoGone id hid
    have hne : id ≠ it.id := fun h => h1 (h ▸ hitmem)
    refine ⟨?_, ?_, h3⟩
    · intro h
      simp only [queueIds] at h
      exact h1 (hrestsub id h)
    · simp only [runningIds, runningIdsW_running, runningIdsW_nil,
        List.mem_singleton]
      exact hne

theorem proc_of_worker {s : QueueState} (hs : QueueInv s)
    {pre post : List WorkerPhase} {w : WorkerPhase}
    (hw : s.workers = pre ++ w :: post) : s.isProcessing = true := by
  cases h : s.isProcessing
  · have := hs.wproc h
    rw [hw] at this
    simp at this
  · rfl

theorem failureUpdate_retry {s : QueueState} {it : QueueItem} {msg : String}
    (h1 : isNonceConflict msg = true) (h2 : it.retryCount < it.maxRetries) :
    failureUpdate s it msg =
      { s with queue := { it with retryCount := it.retryCount + 1 } :: s.queue } := by
  unfold failureUpdate
  rw [if_pos ⟨h1, h2⟩]

theorem failureUpdate_fail {s : QueueState} {it : QueueItem} {msg : String}
    (h : ¬ (isNonceConflict msg = true ∧ it.retryCount < it.maxRetries)) :
    failureUpdate s it msg =
      { s with totalFailed := s.totalFailed + 1,
               events := s.events ++ [.failed it.id msg] } := by
  unfold failureUpdate
  rw [if_neg h]

theorem inv_finishSuccess {s : QueueState} {it : QueueItem} {now : Nat}
    {pre post : List WorkerPhase}
    (hw : s.workers = pre ++ .running it :: post) (hs : QueueInv s) :
    QueueInv { successUpdate s it now with workers := pre ++ .idle :: post } := by
  obtain ⟨hpre, hpost⟩ := workers_singleton hw hs.wlen
  subst hpre; subst hpost
  have hproc := proc_of_worker hs hw
  simp only [List.nil_append] at hw ⊢
  have hitrun : it.id ∈ runningIds s := by simp [runningIds, hw]
  have hterm : terminalIds { successUpdate s it now with
      workers := [WorkerPhase.idle] } = terminalIds s ++ [it.id] := by
    simp [terminalIds, successUpdate, List.filter_append, SettleEvent.isTerminal,
      SettleEvent.eid]
  refine ⟨?_, ?_, ?_, ?_, ?_, ?_, ?_, ?_, ?_, ?_, ?_⟩
  · simp
  · intro h
    simp only [successUpdate] at h
    rw [h] at hproc; simp at hproc
  · simpa [queueIds, successUpdate] using hs.qsorted
  · intro r hr
    simp [runningIds] at hr
  · intro q hq
    simp only [queueIds, successUpdate] at hq
    simpa [successUpdate] using hs.qLtNext q hq
  · intro r hr
    simp [runningIds] at hr
  · rw [hterm]
    refine List.pairwise_append.mpr ⟨hs.termSorted, List.pairwise_singleton _ _, ?_⟩
    intro x hx y hy
    simp only [List.mem_singleton] at hy
    subst hy
    exact hs.termLtRun x hx it.id hitrun
  · intro e he q hq
    rw [hterm] at he
    simp only [queueIds, successUpdate] at hq
    rcases List.mem_append.mp he with he | he
    · exact hs.termLtQueue e he q hq
    · simp only [List.mem_singleton] at he
      subst he
      exact hs.runLtQueue it.id hitrun q hq
  · intro e he r hr
    simp [runningIds] at hr
  · intro e he
    rw [hterm] at he
    simp only [successUpdate]
    rcases List.mem_append.mp he with he | he
    · exact hs.termLtNext e he
    · simp only [List.mem_singleton] at he
      subst he
      exact hs.runLtNext it.id hitrun
  · intro id hid
    simp only [successUpdate, List.mem_append, List.mem_singleton] at hid
    rcases hid with hid | hid
    · obtain ⟨h1, h2, h3⟩ := hs.tmoGone id hid
      refine ⟨?_, ?_, ?_⟩
      · simpa [queueIds, successUpdate] using h1
      · simp [runningIds]
      · simpa [successUpdate] using h3
    · simp at hid

theorem inv_finishFailure {s : QueueState} {it : QueueItem} {msg : String}
    {pre post : List WorkerPhase}
    (hw : s.workers = pre ++ .running it :: post) (hs : QueueInv s) :
    QueueInv { failureUpdate s it msg with workers := pre ++ .idle :: post } := by
  obtain ⟨hpre, hpost⟩ := workers_singleton hw hs.wlen
  subst hpre; subst hpost
  have hproc := proc_of_worker hs hw
  simp only [List.nil_append] at hw ⊢
  have hitrun : it.id ∈ runningIds s := by simp [runningIds, hw]
  by_cases hcond : isNonceConflict msg = true ∧ it.retryCount < it.maxRetries
  · rw [failureUpdate_retry hcond.1 hcond.2]
    refine ⟨?_, ?_, ?_, ?_, ?_, ?_, ?_, ?_, ?_, ?_, ?_⟩
    · simp
    · intro h
      simp only at h
      rw [h] at hproc; simp at hproc
    · simp only [queueIds, List.map_cons]
      refine List.pairwise_cons.mpr ⟨?_, by simpa [queueIds] using hs.qsorted⟩
      intro q hq
      exact hs.runLtQueue it.id hitrun q hq
    · intro r hr
      simp [runningIds] at hr
    · intro q hq
      simp only [queueIds, List.map_cons, List.mem_cons] at hq
      rcases hq with hq | hq
      · subst hq
        simpa using hs.runLtNext it.id hitrun
      · simpa using hs.qLtNext q hq
    · intro r hr
      simp [runningIds] at hr
    · simpa [terminalIds] using hs.termSorted
    · intro e he q hq
      simp only [terminalIds] at he
      simp only [queueIds, List.map_cons, List.mem_cons] at hq
      rcases hq with hq | hq
      · subst hq
        exact hs.termLtRun e he it.id hitrun
      · exact hs.termLtQueue e he q hq
    · intro e he r hr
      simp [runningIds] at hr
    · intro e he
      simp only [terminalIds] at he
      simpa using hs.termLtNext e he
    · intro id hid
      simp only at hid
      obtain ⟨h1, h2, h3⟩ := hs.tmoGone id hid
      have hne : id ≠ it.id := by
        intro h
        rw [h] at h2
        exact h2 hitrun
      refine ⟨?_, ?_, by simpa using h3⟩
      · simp only [queueIds, List.map_cons, List.mem_cons]
        rintro (h | h)
        · exact hne h
        · exact h1 h
      · simp [runningIds]
  · rw [failureUpdate_fail hcond]
    have hterm : terminalIds { s with totalFailed := s.totalFailed + 1, events := s.events ++ [.failed it.id msg], workers := [WorkerPhase.idle] } = terminalIds s ++ [it.id] := by
      simp [terminalIds, List.filter_append, SettleEvent.isTerminal, SettleEvent.eid]
    refine ⟨?_, ?_, ?_, ?_, ?_, ?_, ?_, ?_, ?_, ?_, ?_⟩
    · simp
    · intro h
      simp only at h
      rw [h] at hproc; simp at hproc
    · simpa [queueIds] using hs.qsorted
    · intro r hr
      simp [runningIds] at hr
    · intro q hq
      simp only [queueIds] at hq
      simpa using hs.qLtNext q hq
    · intro r hr
      simp [runningIds] at hr
    · rw [hterm]
      refine List.pairwise_append.mpr ⟨hs.termSorted, List.pairwise_singleton _ _, ?_⟩
      intro x hx y hy
      simp only [List.mem_singleton] at hy
      subst hy
      exact hs.termLtRun x hx it.id hitrun
    · intro e he q hq
      rw [hterm] at he
      simp only [queueIds] at hq
      rcases List.mem_append.mp he with he | he
      · exact hs.termLtQueue e he q hq
      · simp only [List.mem_singleton] at he
        subst he
        exact hs.runLtQueue it.id hitrun q hq
    · intro e he r hr
      simp [runningIds] at hr
    · intro e he
      rw [hterm] at he
      rcases List.mem_append.mp he with he | he
      · simpa using hs.termLtNext e he
      · simp only [List.mem_singleton] at he
        subst he
        simpa using hs.runLtNext it.id hitrun
    · intro id hid
      simp only [List.mem_append, List.mem_singleton] at hid
      rcases hid with hid | hid
      · obtain ⟨h1, h2, h3⟩ := hs.tmoGone id hid
        exact ⟨by simpa [queueIds] using h1, by simp [runningIds], by simpa using h3⟩
      · simp at hid

theorem inv_exitLoop {s : QueueState} {pre post : List WorkerPhase}
    (hw : s.workers = pre ++ .idle :: post) (hs : QueueInv s) :
    QueueInv { s with workers := pre ++ post, isProcessing := false } := by
  obtain ⟨hpre, hpost⟩ := workers_singleton hw hs.wlen
  subst hpre; subst hpost
  simp only [List.nil_append] at hw ⊢
  refine ⟨?_, ?_, ?_, ?_, ?_, ?_, ?_, ?_, ?_, ?_, ?_⟩
  · simp
  · intro _; rfl
  · simpa [queueIds] using hs.qsorted
  · intro r hr
    simp [runningIds] at hr
  · intro q hq
    simp only [queueIds] at hq
    simpa using hs.qLtNext q hq
  · intro r hr
    simp [runningIds] at hr
  · simpa [terminalIds] using hs.termSorted
  · intro e he q hq
    simp only [terminalIds] at he
    simp only [queueIds] at hq
    exact hs.termLtQueue e he q hq
  · intro e he r hr
    simp [runningIds] at hr
  · intro e he
    simp only [terminalIds] at he
    simpa using hs.termLtNext e he
  · intro id hid
    simp only at hid
    obtain ⟨h1, h2, h3⟩ := hs.tmoGone id hid
    exact ⟨by simpa [queueIds] using h1, by simp [runningIds], by simpa using h3⟩

theorem inv_clear {s : QueueState} (hs : QueueInv s) :
    QueueInv (clearQueueCall s).1 := by
  refine ⟨?_, ?_, ?_, ?_, ?_, ?_, ?_, ?_, ?_, ?_, ?_⟩
  · simpa [clearQueueCall] using hs.wlen
  · simpa [clearQueueCall] using hs.wproc
  · simp [queueIds, clearQueueCall]
  · intro r hr q hq
    simp [queueIds, clearQueueCall] at hq
  · intro q hq
    simp [queueIds, clearQueueCall] at hq
  · intro r hr
    simp only [runningIds, clearQueueCall] at hr
    simpa [clearQueueCall] using hs.runLtNext r hr
  · simpa [terminalIds, clearQueueCall] using hs.termSorted
  · intro e he q hq
    simp [queueIds, clearQueueCall] at hq
  · intro e he r hr
    simp only [terminalIds, clearQueueCall] at he
    simp only [runningIds, clearQueueCall] at hr
    exact hs.termLtRun e he r hr
  · intro e he
    simp only [terminalIds, clearQueueCall] at he
    simpa [clearQueueCall] using hs.termLtNext e he
  · intro id hid
    simp only [clearQueueCall] at hid
    obtain ⟨h1, h2, h3⟩ := hs.tmoGone id hid
    refine ⟨?_, ?_, ?_⟩
    · simp [queueIds, clearQueueCall]
    · simpa [runningIds, clearQueueCall] using h2
    · simpa [clearQueueCall] using h3

theorem inv_shutdown {s : QueueState} (hs : QueueInv s) :
    QueueInv (shutdownBegin s) := by
  refine ⟨?_, ?_, ?_, ?_, ?_, ?_, ?_, ?_, ?_, ?_, ?_⟩
  · simpa [shutdownBegin] using hs.wlen
  · simpa [shutdownBegin] using hs.wproc
  · simpa [queueIds, shutdownBegin] using hs.qsorted
  · intro r hr q hq
    simp only [runningIds, shutdownBegin] at hr
    simp only [queueIds, shutdownBegin] at hq
    exact hs.runLtQueue r hr q hq
  · intro q hq
    simp only [queueIds, shutdownBegin] at hq
    simpa [shutdownBegin] using hs.qLtNext q hq
  · intro r hr
    simp only [runningIds, shutdownBegin] at hr
    simpa [shutdownBegin] using hs.runLtNext r hr
  · simpa [terminalIds, shutdownBegin] using hs.termSorted
  · intro e he q hq
    simp only [terminalIds, shutdownBegin] at he
    simp only [queueIds, shutdownBegin] at hq
    exact hs.termLtQueue e he q hq
  · intro e he r hr
    simp only [terminalIds, shutdownBegin] at he
    simp only [runningIds, shutdownBegin] at hr
    exact hs.termLtRun e he r hr
  · intro e he
    simp only [terminalIds, shutdownBegin] at he
    simpa [shutdownBegin] using hs.termLtNext e he
  · intro id hid
    simp only [shutdownBegin] at hid
    obtain ⟨h1, h2, h3⟩ := hs.tmoGone id hid
    refine ⟨?_, ?_, ?_⟩
    · simpa [queueIds, shutdownBegin] using h1
    · simpa [runningIds, shutdownBegin] using h2
    · simpa [shutdownBegin] using h3

theorem inv_timeout {s : QueueState} (id : Nat) (hs : QueueInv s) :
    QueueInv (timeoutFire s id) := by
  by_cases hg : s.queue.any (fun i => i.id == id) = true
  · have hmem : id ∈ queueIds s := by
      rcases List.any_eq_true.mp hg with ⟨x, hx, hxid⟩
      simp only [beq_iff_eq] at hxid
      exact List.mem_map.mpr ⟨x, hx, hxid⟩
    have hsub : List.Sublist ((s.queue.eraseP (fun i => i.id == id)).map (·.id)) (queueIds s) :=
      (List.eraseP_sublist _).map _
    have hqe : timeoutFire s id = { s with queue := s.queue.eraseP (fun i => i.id == id), events := s.events ++ [.timeoutReject id] } := by
      unfold timeoutFire
      rw [if_pos hg]
    rw [hqe]
    have hterm : terminalIds { s with queue := s.queue.eraseP (fun i => i.id == id), events := s.events ++ [.timeoutReject id] } = terminalIds s := by
      simp [terminalIds, List.filter_append, SettleEvent.isTerminal]
    refine ⟨?_, ?_, ?_, ?_, ?_, ?_, ?_, ?_, ?_, ?_, ?_⟩
    · simpa using hs.wlen
    · simpa using hs.wproc
    · simp only [queueIds]
      exact hs.qsorted.sublist hsub
    · intro r hr q hq
      simp only [runningIds] at hr
      simp only [queueIds] at hq
      exact hs.runLtQueue r hr q (hsub.subset hq)
    · intro q hq
      simp only [queueIds] at hq
      simpa using hs.qLtNext q (hsub.subset hq)
    · intro r hr
      simp only [runningIds] at hr
      simpa using hs.runLtNext r hr
    · rw [hterm]
      exact hs.termSorted
    · intro e he q hq
      rw [hterm] at he
      simp only [queueIds] at hq
      exact hs.termLtQueue e he q (hsub.subset hq)
    · intro e he r hr
      rw [hterm] at he
      simp only [runningIds] at hr
      exact hs.termLtRun e he r hr
    · intro e he
      rw [hterm] at he
      simpa using hs.termLtNext e he
    · intro id2 hid2
      simp only [List.mem_append, List.mem_singleton] at hid2
      rcases hid2 with hid2 | hid2
      · obtain ⟨h1, h2, h3⟩ := hs.tmoGone id2 hid2
        refine ⟨?_, by simpa [runningIds] using h2, by simpa using h3⟩
        simp only [queueIds]
        intro h
        exact h1 (hsub.subset h)
      · have hid2 : id2 = id := by
          simpa [SettleEvent.timeoutReject.injEq] using hid2
        subst hid2
        refine ⟨?_, ?_, ?_⟩
        · simp only [queueIds]
          exact eraseP_id_not_mem (by simpa [queueIds] using hs.qsorted)
        · intro h
          simp only [runningIds] at h
          exact absurd rfl (Nat.ne_of_lt (hs.runLtQueue id2 h id2 hmem))
        · simpa using hs.qLtNext id2 hmem
  · have hqe : timeoutFire s id = s := by
      unfold timeoutFire
      rw [if_neg hg]
    rw [hqe]
    exact hs

theorem inv_step {s t : QueueState} (h : QStep s t) (hs : QueueInv s) :
    QueueInv t := by
  cases h with
  | submit cfg now hsd => exact inv_enqueue cfg now hs
  | beginProcessing it rest hq hp hsd => exact inv_begin hq hp hs
  | nextIteration it rest pre post hw hq hsd => exact inv_nextIter hw hq hs
  | finishSuccess it now pre post hw => exact inv_finishSuccess hw hs
  | finishFailure it msg pre post hw => exact inv_finishFailure hw hs
  | exitLoop pre post hw hend => exact inv_exitLoop hw hs
  | clearQ => exact inv_clear hs
  | shutdownB => exact inv_shutdown hs
  | timeoutF id => exact inv_timeout id hs

theorem inv_init : QueueInv initState := by
  refine ⟨?_, ?_, ?_, ?_, ?_, ?_, ?_, ?_, ?_, ?_, ?_⟩ <;>
    simp [initState, queueIds, runningIds, terminalIds]

theorem inv_reachable {s : QueueState} (h : Reachable s) : QueueInv s := by
  induction h with
  | refl => exact inv_init
  | tail _ hstep ih => exact inv_step hstep ih

theorem mem_runningIds_split {s : QueueState} {pre post : List WorkerPhase}
    {w : WorkerPhase} (hw : s.workers = pre ++ w :: post) {x : Nat}
    (h : x ∈ runningIdsW pre ∨ x ∈ runningIdsW post) : x ∈ runningIds s := by
  have hin : x ∈ runningIdsW pre ∨ x ∈ runningIdsW (w :: post) := by
    rcases h with h | h
    · exact Or.inl h
    · right
      cases w with
      | running it => simp [h]
      | idle => simpa using h
  simp only [runningIds, hw, runningIdsW_append, List.mem_append]
  exact hin

theorem gone_step {id : Nat} {s t : QueueState} (h : QStep s t)
    (hg : GoneNoSettle id s) : GoneNoSettle id t := by
  obtain ⟨hq, hr, hn, he⟩ := hg
  cases h with
  | submit cfg now hsd =>
    refine ⟨?_, ?_, ?_, ?_⟩
    · simp only [queueIds, enqueueState, List.map_append, List.map_cons, List.map_nil,
        List.mem_append, List.mem_singleton]
      rintro (h | h)
      · exact hq h
      · omega
    · simpa [runningIds, enqueueState] using hr
    · simp only [enqueueState]; omega
    · intro e hev
      simp only [enqueueState] at hev
      exact he e hev
  | beginProcessing it rest hqq hp hsd =>
    have hit : it.id ∈ queueIds s := by simp [queueIds, hqq]
    have hne : it.id ≠ id := fun h => hq (h ▸ hit)
    refine ⟨?_, ?_, hn, ?_⟩
    · intro h
      simp only [queueIds] at h
      refine hq ?_
      simp only [queueIds, hqq, List.map_cons, List.mem_cons]
      exact Or.inr h
    · simp only [runningIds, runningIdsW_running, List.mem_cons]
      rintro (h | h)
      · exact hne h.symm
      · exact hr h
    · intro e hev
      simp only at hev
      exact he e hev
  | nextIteration it rest pre post hw hqq hsd =>
    have hit : it.id ∈ queueIds s := by simp [queueIds, hqq]
    have hne : it.id ≠ id := fun h => hq (h ▸ hit)
    refine ⟨?_, ?_, hn, ?_⟩
    · intro h
      simp only [queueIds] at h
      refine hq ?_
      simp only [queueIds, hqq, List.map_cons, List.mem_cons]
      exact Or.inr h
    · simp only [runningIds, runningIdsW_append, runningIdsW_running,
        List.mem_append, List.mem_cons]
      rintro (h | h | h)
      · exact hr (mem_runningIds_split hw (Or.inl h))
      · exact hne h.symm
      · exact hr (mem_runningIds_split hw (Or.inr h))
    · intro e hev
      simp only at hev
      exact he e hev
  | finishSuccess it now pre post hw =>
    have hit : it.id ∈ runningIds s := by
      simp [runningIds, hw, runningIdsW_append]
    have hne : it.id ≠ id := fun h => hr (h ▸ hit)
    refine ⟨?_, ?_, ?_, ?_⟩
    · simpa [queueIds, successUpdate] using hq
    · simp only [runningIds, runningIdsW_append, runningIdsW_idle,
        List.mem_append]
      rintro (h | h)
      · exact hr (mem_runningIds_split hw (Or.inl h))
      · exact hr (mem_runningIds_split hw (Or.inr h))
    · simpa [successUpdate] using hn
    · intro e hev
      simp only [successUpdate, List.mem_append, List.mem_singleton] at hev
      rcases hev with hev | hev
      · exact he e hev
      · subst hev
        simpa [SettleEvent.eid] using hne
  | finishFailure it msg pre post hw =>
    have hit : it.id ∈ runningIds s := by
      simp [runningIds, hw, runningIdsW_append]
    have hne : it.id ≠ id := fun h => hr (h ▸ hit)
    have hrun : id ∉ runningIdsW (pre ++ WorkerPhase.idle :: post) := by
      simp only [runningIdsW_append, runningIdsW_idle, List.mem_append]
      rintro (h | h)
      · exact hr (mem_runningIds_split hw (Or.inl h))
      · exact hr (mem_runningIds_split hw (Or.inr h))
    by_cases hcond : isNonceConflict msg = true ∧ it.retryCount < it.maxRetries
    · rw [failureUpdate_retry hcond.1 hcond.2]
      refine ⟨?_, ?_, hn, ?_⟩
      · simp only [queueIds, List.map_cons, List.mem_cons]
        rintro (h | h)
        · exact hne h.symm
        · exact hq h
      · simpa [runningIds] using hrun
      · intro e hev
        simp only at hev
        exact he e hev
    · rw [failureUpdate_fail hcond]
      refine ⟨?_, ?_, hn, ?_⟩
      · simpa [queueIds] using hq
      · simpa [runningIds] using hrun
      · intro e hev
        simp only [List.mem_append, List.mem_singleton] at hev
        rcases hev with hev | hev
        · exact he e hev
        · subst hev
          simpa [SettleEvent.eid] using hne
  | exitLoop pre post hw hend =>
    refine ⟨?_, ?_, hn, ?_⟩
    · simpa [queueIds] using hq
    · simp only [runningIds, runningIdsW_append, List.mem_append]
      rintro (h | h)
      · exact hr (mem_runningIds_split hw (Or.inl h))
      · exact hr (mem_runningIds_split hw (Or.inr h))
    · intro e hev
      simp only at hev
      exact he e hev
  | clearQ =>
    refine ⟨?_, ?_, ?_, ?_⟩
    · simp [queueIds, clearQueueCall]
    · simpa [runningIds, clearQueueCall] using hr
    · simpa [clearQueueCall] using hn
    · intro e hev
      simp only [clearQueueCall] at hev
      exact he e hev
  | shutdownB =>
    refine ⟨?_, ?_, ?_, ?_⟩
    · simpa [queueIds, shutdownBegin] using hq
    · simpa [runningIds, shutdownBegin] using hr
    · simpa [shutdownBegin] using hn
    · intro e hev
      simp only [shutdownBegin] at hev
      exact he e hev
  | timeoutF id2 =>
    by_cases hgrd : s.queue.any (fun i => i.id == id2) = true
    · have hid2 : id2 ∈ queueIds s := by
        rcases List.any_eq_true.mp hgrd with ⟨x, hx, hxid⟩
        simp only [beq_iff_eq] at hxid
        exact List.mem_map.mpr ⟨x, hx, hxid⟩
      have hne : id2 ≠ id := fun h => hq (h ▸ hid2)
      have hqe : timeoutFire s id2 = { s with queue := s.queue.eraseP (fun i => i.id == id2), events := s.events ++ [.timeoutReject id2] } := by
        unfold timeoutFire
        rw [if_pos hgrd]
      rw [hqe]
      refine ⟨?_, ?_, ?_, ?_⟩
      · simp only [queueIds]
        intro h
        exact hq (((List.eraseP_sublist _).map _).subset h)
      · simpa [runningIds] using hr
      · simpa using hn
      · intro e hev
        simp only [List.mem_append, List.mem_singleton] at hev
        rcases hev with hev | hev
        · exact he e hev
        · subst hev
          simpa [SettleEvent.eid] using hne
    · have hqe : timeoutFire s id2 = s := by
        unfold timeoutFire
        rw [if_neg hgrd]
      rw [hqe]
      exact ⟨hq, hr, hn, he⟩

theorem gone_star {id : Nat} {s t : QueueState}
    (h : Relation.ReflTransGen QStep s t) (hg : GoneNoSettle id s) :
    GoneNoSettle id t := by
  induction h with
  | refl => exact hg
  | tail _ hstep ih => exact gone_step hstep ih

/-- Claim C1 (code-level evaluation): contrary to the claim, the queue's
retryability check `isNonceConflict` classifies the message
`"Invalid Transaction: insufficient funds"` (which contains "invalid
transaction" but not "nonce") as a retryable nonce conflict — as does
`isNonceConflictError` in `zkTransactionUtils.ts` — so the first such failure
of a fresh item (retry counter 0, default `maxRetries` 3) retries: the retry
counter becomes 1, the item is pushed back to the pending list, no `failed`
settlement is emitted and the failed counter stays 0, instead of the caller
being rejected with the counter still 0. -/
theorem c1_invalid_transaction_is_retried :
    isNonceConflict "Invalid Transaction: insufficient funds" = true
    ∧ isNonceConflictError "Invalid Transaction: insufficient funds" = true
    ∧ failureUpdate initState ⟨0, 0, 0, 3⟩ "Invalid Transaction: insufficient funds"
        = { initState with queue := [⟨0, 0, 1, 3⟩] }
    ∧ (failureUpdate initState ⟨0, 0, 0, 3⟩ "Invalid Transaction: insufficient funds").events = []
    ∧ (failureUpdate initState ⟨0, 0, 0, 3⟩ "Invalid Transaction: insufficient funds").totalFailed = 0 := by
  refine ⟨by decide, by decide, by decide, by decide, by decide⟩

/-- Claim C2: on a nonce-conflict failure (e.g. "Priority is too low") with
retries remaining, the failure branch of the processing loop performs exactly
one retry: the item re-enters the head of the pending list with its retry
counter incremented by 1, and no settlement event is emitted (the caller's
future stays pending); once the retry counter has reached `maxRetries`, the
same failure instead bumps the failed counter and emits the `failed` event
carrying the error, rejecting the caller's future. -/
theorem c2_nonce_conflict_retry_policy (s : QueueState) (it : QueueItem)
    (msg : String) (hmsg : isNonceConflict msg = true) :
    (it.retryCount < it.maxRetries →
      failureUpdate s it msg =
        { s with queue := { it with retryCount := it.retryCount + 1 } :: s.queue })
    ∧ (it.maxRetries ≤ it.retryCount →
      failureUpdate s it msg =
        { s with totalFailed := s.totalFailed + 1,
                 events := s.events ++ [.failed it.id msg] })
    ∧ isNonceConflict "Priority is too low" = true := by
  refine ⟨fun h => failureUpdate_retry hmsg h, fun h => ?_, by decide⟩
  refine failureUpdate_fail ?_
  rintro ⟨_, hlt⟩
  omega

/-- Witness for C2 at concrete inputs: a fresh item (counter 0 < 3) retried
to the queue head with counter 1 on "Priority is too low", and an exhausted
item (counter 3 = maxRetries) rejected with the `failed` event. -/
theorem c2_nonce_conflict_retry_policy_witness :
    failureUpdate initState ⟨0, 0, 0, 3⟩ "Priority is too low"
      = { initState with queue := [⟨0, 0, 1, 3⟩] }
    ∧ failureUpdate initState ⟨1, 0, 3, 3⟩ "Priority is too low"
      = { initState with totalFailed := 1,
                         events := [.failed 1 "Priority is too low"] } :=
  ⟨(c2_nonce_conflict_retry_policy initState ⟨0, 0, 0, 3⟩ _ (by decide)).1 (by decide),
   (c2_nonce_conflict_retry_policy initState ⟨1, 0, 3, 3⟩ _ (by decide)).2.1 (by decide)⟩

/-- Claim C3: in every reachable queue state, at most one submission attempt
is in flight (at most one `processQueue` invocation is past the
`isProcessing` guard, hence at most one item has active status), and the
terminal outcomes (processed or failed items) recorded so far were emitted in
strictly increasing item-id order — i.e. exactly submission order, retried
items included (a retried item re-enters at the head, ahead only of strictly
later arrivals, never ahead of items that preceded it). -/
theorem c3_serialization_and_order {s : QueueState} (h : Reachable s) :
    (runningIds s).length ≤ 1
    ∧ s.workers.length ≤ 1
    ∧ (terminalIds s).Pairwise (· < ·) := by
  have hs := inv_reachable h
  refine ⟨?_, hs.wlen, hs.termSorted⟩
  calc (runningIds s).length ≤ s.workers.length := List.length_filterMap_le _ _
    _ ≤ 1 := hs.wlen

/-- Witness for C3: the state reached by one accepted `submit`. -/
theorem c3_serialization_and_order_witness :
    (runningIds (enqueueState ⟨1, 3, 5000, 300000⟩ 0 initState)).length ≤ 1
    ∧ (enqueueState ⟨1, 3, 5000, 300000⟩ 0 initState).workers.length ≤ 1
    ∧ (terminalIds (enqueueState ⟨1, 3, 5000, 300000⟩ 0 initState)).Pairwise (· < ·) :=
  c3_serialization_and_order
    (Relation.ReflTransGen.single (QStep.submit initState ⟨1, 3, 5000, 300000⟩ 0 rfl))

/-- Claim C4 counterexample: with the transaction queue initialized but the
session not connected, the `/verify-score` handler's connectivity gate
replies 503 service-unavailable and the request is NOT handed to the queue —
refuting "a Submit call still enqueues the request instead of rejecting it
outright" while not connected. -/
theorem c4_counterexample :
    verifyScoreGate true false = .serviceUnavailable
    ∧ verifyScoreGate true false ≠ .enqueueToQueue := by
  refine ⟨by decide, by decide⟩

/-- Claim C4 amended: a `/verify-score` submission is handed to the queue
exactly when the queue is initialized and the session is connected; when not
connected the handler rejects with 503 before enqueueing.  Moreover the
queue's own processing loop performs no connectivity check: its start step is
enabled by the pending list, `isProcessing` and the shutdown flag alone, so
an already-enqueued item can be attempted regardless of connection state. -/
theorem c4_gate_amended :
    (∀ qi c : Bool, verifyScoreGate qi c = .enqueueToQueue ↔ (qi = true ∧ c = true))
    ∧ (∀ (s : QueueState) (it : QueueItem) (rest : List QueueItem),
        s.queue = it :: rest → s.isProcessing = false → s.isShuttingDown = false →
        QStep s { s with queue := rest,
                         workers := .running it :: s.workers,
                         isProcessing := true }) := by
  refine ⟨by decide, ?_⟩
  intro s it rest hq hp hs
  exact QStep.beginProcessing s it rest hq hp hs

/-- Witness for the amended C4: the gate enqueues when connected, and the
processing-loop start step fires on a one-item queue with no connectivity
hypothesis. -/
theorem c4_gate_amended_witness :
    (verifyScoreGate true true = .enqueueToQueue ↔ (true = true ∧ true = true))
    ∧ QStep ⟨[⟨0, 0, 0, 3⟩], [], false, false, 0, 0, none, 1, []⟩
        ⟨[], [.running ⟨0, 0, 0, 3⟩], true, false, 0, 0, none, 1, []⟩ :=
  ⟨c4_gate_amended.1 true true,
   c4_gate_amended.2 ⟨[⟨0, 0, 0, 3⟩], [], false, false, 0, 0, none, 1, []⟩
     ⟨0, 0, 0, 3⟩ [] rfl rfl rfl⟩

/-- Claim C5 counterexample: in the reachable state where the single
submitted item (id 0) is already in flight, no terminal outcome has occurred
(`events = []`), yet the per-item timeout callback firing now leaves the
state unchanged — the caller's future is NOT failed with a timeout error —
and when the in-flight attempt later completes, the `completed` event is
emitted, so the attempt's result is delivered to the caller rather than
discarded. -/
theorem c5_counterexample :
    Relation.ReflTransGen QStep initState
      ⟨[], [.running ⟨0, 0, 0, 3⟩], true, false, 0, 0, none, 1, []⟩
    ∧ timeoutFire ⟨[], [.running ⟨0, 0, 0, 3⟩], true, false, 0, 0, none, 1, []⟩ 0
        = ⟨[], [.running ⟨0, 0, 0, 3⟩], true, false, 0, 0, none, 1, []⟩
    ∧ (⟨[], [.running ⟨0, 0, 0, 3⟩], true, false, 0, 0, none, 1, []⟩ : QueueState).events = []
    ∧ (successUpdate
        (timeoutFire ⟨[], [.running ⟨0, 0, 0, 3⟩], true, false, 0, 0, none, 1, []⟩ 0)
        ⟨0, 0, 0, 3⟩ 99).events = [.completed 0] := by
  refine ⟨?_, by decide, by decide, by decide⟩
  have h1 : QStep initState (enqueueState ⟨1, 3, 5000, 300000⟩ 0 initState) :=
    QStep.submit initState ⟨1, 3, 5000, 300000⟩ 0 rfl
  have h2 : QStep (enqueueState ⟨1, 3, 5000, 300000⟩ 0 initState)
      ⟨[], [.running ⟨0, 0, 0, 3⟩], true, false, 0, 0, none, 1, []⟩ :=
    QStep.beginProcessing (enqueueState ⟨1, 3, 5000, 300000⟩ 0 initState)
      ⟨0, 0, 0, 3⟩ [] rfl rfl rfl
  exact Relation.ReflTransGen.head h1 (Relation.ReflTransGen.single h2)

/-- Claim C5 amended: the per-item timeout callback rejects the caller with a
timeout error and splices the item out exactly when the item is still in the
pending list when the timeout fires; if the item is no longer pending (its
attempt started, or it already settled, or it was cleared), the callback does
nothing — an in-flight attempt is neither cancelled nor timeout-rejected, and
its future later settles with the attempt's actual outcome.  In either case
the in-flight workers are untouched. -/
theorem c5_timeout_pending_only (s : QueueState) (id : Nat) :
    (s.queue.any (fun i => i.id == id) = true →
      timeoutFire s id = { s with queue := s.queue.eraseP (fun i => i.id == id),
                                  events := s.events ++ [.timeoutReject id] })
    ∧ (s.queue.any (fun i => i.id == id) = false → timeoutFire s id = s)
    ∧ (timeoutFire s id).workers = s.workers := by
  refine ⟨?_, ?_, ?_⟩
  · intro h
    unfold timeoutFire
    rw [if_pos h]
  · intro h
    unfold timeoutFire
    rw [if_neg (by simp [h])]
  · by_cases h : s.queue.any (fun i => i.id == id) = true
    · unfold timeoutFire
      rw [if_pos h]
    · unfold timeoutFire
      rw [if_neg h]

/-- Witness for the amended C5: a still-pending item is spliced out and
timeout-rejected; firing for an id that is not pending changes nothing. -/
theorem c5_timeout_pending_only_witness :
    timeoutFire ⟨[⟨0, 0, 0, 3⟩], [], false, false, 0, 0, none, 1, []⟩ 0
      = ⟨[], [], false, false, 0, 0, none, 1, [.timeoutReject 0]⟩
    ∧ timeoutFire ⟨[], [.running ⟨7, 0, 0, 3⟩], true, false, 0, 0, none, 8, []⟩ 7
      = ⟨[], [.running ⟨7, 0, 0, 3⟩], true, false, 0, 0, none, 8, []⟩ := by
  constructor
  · have h := (c5_timeout_pending_only
      ⟨[⟨0, 0, 0, 3⟩], [], false, false, 0, 0, none, 1, []⟩ 0).1 (by decide)
    exact h
  · have h := (c5_timeout_pending_only
      ⟨[], [.running ⟨7, 0, 0, 3⟩], true, false, 0, 0, none, 8, []⟩ 7).2.1 (by decide)
    exact h

/-- Claim C6: `categorizeTransactionError` applies its rules in fixed
priority order with first match winning: any message containing "proof" or
"verification" that matches none of the earlier nonce-conflict
("priority is too low", "1014", "invalid transaction"), balance/payment, or
network/connection/timeout rules yields `VERIFICATION_FAILED`, even when the
message also contains "missing" or "invalid"; conversely the
missing/invalid rule yields `VALIDATION_ERROR` only for messages not already
matched — in particular such messages contain neither "proof" nor
"verification". -/
theorem c6_classifier_priority (msg : String) :
    ((strIncludes (strToLower msg) "proof" = true ∨
      strIncludes (strToLower msg) "verification" = true) →
     strIncludes (strToLower msg) "priority is too low" = false →
     strIncludes (strToLower msg) "1014" = false →
     strIncludes (strToLower msg) "invalid transaction" = false →
     strIncludes (strToLower msg) "insufficient balance" = false →
     strIncludes (strToLower msg) "payment" = false →
     strIncludes (strToLower msg) "network" = false →
     strIncludes (strToLower msg) "connection" = false →
     strIncludes (strToLower msg) "timeout" = false →
     categorizeTransactionError msg = .VERIFICATION_FAILED)
    ∧ (categorizeTransactionError msg = .VALIDATION_ERROR →
       (strIncludes (strToLower msg) "missing" = true ∨
        strIncludes (strToLower msg) "invalid" = true)
       ∧ strIncludes (strToLower msg) "proof" = false
       ∧ strIncludes (strToLower msg) "verification" = false) := by
  constructor
  · intro hpv h1 h2 h3 h4 h5 h6 h7 h8
    rcases hpv with hp | hv
    · simp [categorizeTransactionError, h1, h2, h3, h4, h5, h6, h7, h8, hp]
    · simp [categorizeTransactionError, h1, h2, h3, h4, h5, h6, h7, h8, hv]
  · intro h
    simp only [categorizeTransactionError] at h
    split_ifs at h with g1 g2 g3 g4 g5 g6 g7
    have hmi : strIncludes (strToLower msg) "missing" = true ∨
        strIncludes (strToLower msg) "invalid" = true := by
      simpa using g7
    have hpv : strIncludes (strToLower msg) "proof" = false ∧
        strIncludes (strToLower msg) "verification" = false := by
      simpa using g6
    exact ⟨hmi, hpv.1, hpv.2⟩

/-- Witness for C6: "Invalid proof of score, missing signal" contains
"invalid" and "missing" yet classifies as `VERIFICATION_FAILED` (the
proof/verification rule fires first), and "Missing field" classifies as
`VALIDATION_ERROR` with the required side conditions. -/
theorem c6_classifier_priority_witness :
    categorizeTransactionError "Invalid proof of score, missing signal"
      = .VERIFICATION_FAILED
    ∧ ((strIncludes (strToLower "Missing field") "missing" = true ∨
        strIncludes (strToLower "Missing field") "invalid" = true)
       ∧ strIncludes (strToLower "Missing field") "proof" = false
       ∧ strIncludes (strToLower "Missing field") "verification" = false) :=
  ⟨(c6_classifier_priority "Invalid proof of score, missing signal").1
      (Or.inl (by decide)) (by decide) (by decide) (by decide) (by decide)
      (by decide) (by decide) (by decide) (by decide),
   (c6_classifier_priority "Missing field").2 (by decide)⟩

/-- Claim C7: after `shutdown` has begun (the flag is set synchronously at
its start, before the drain), every `submit` call fails immediately with the
shutting-down error and produces no enqueue — for every state, including
states with an attempt still in flight; beginning shutdown a second time is
the identity on the already-shut-down state (idempotent, returns without
error), and the queue remains shut down with pending list, workers and event
trace untouched. -/
theorem c7_shutdown_rejects_and_idempotent (cfg : QueueConfig) (now : Nat)
    (s : QueueState) :
    submitCall cfg now (shutdownBegin s)
      = .error "Queue is shutting down, cannot accept new submissions"
    ∧ (shutdownBegin s).isShuttingDown = true
    ∧ shutdownBegin (shutdownBegin s) = shutdownBegin s
    ∧ (shutdownBegin s).queue = s.queue
    ∧ (shutdownBegin s).workers = s.workers
    ∧ (shutdownBegin s).events = s.events := by
  refine ⟨?_, rfl, rfl, rfl, rfl, rfl⟩
  simp [submitCall, shutdownBegin]

/-- Claim C8: `clearQueue` returns the number of pending items and whether an
active transaction existed, empties exactly the pending list, and leaves the
workers (the active attempt keeps running), both counters, the flags, the
completion timestamp, the id counter and the event trace unchanged; on a
queue with 3 pending items and 1 active it returns `(3, true)`. -/
theorem c8_clearQueue_frame (s : QueueState) :
    (clearQueueCall s).2.1 = s.queue.length
    ∧ (clearQueueCall s).2.2 = (activeTransaction s).isSome
    ∧ (clearQueueCall s).1.queue = []
    ∧ (clearQueueCall s).1.workers = s.workers
    ∧ (clearQueueCall s).1.isProcessing = s.isProcessing
    ∧ (clearQueueCall s).1.isShuttingDown = s.isShuttingDown
    ∧ (clearQueueCall s).1.totalProcessed = s.totalProcessed
    ∧ (clearQueueCall s).1.totalFailed = s.totalFailed
    ∧ (clearQueueCall s).1.lastCompletedTimestamp = s.lastCompletedTimestamp
    ∧ (clearQueueCall s).1.nextId = s.nextId
    ∧ (clearQueueCall s).1.events = s.events
    ∧ (clearQueueCall ⟨[⟨1, 0, 0, 3⟩, ⟨2, 0, 0, 3⟩, ⟨3, 0, 0, 3⟩],
        [.running ⟨0, 0, 0, 3⟩], true, false, 0, 0, none, 4, []⟩).2 = (3, true) := by
  refine ⟨rfl, rfl, rfl, rfl, rfl, rfl, rfl, rfl, rfl, rfl, rfl, by decide⟩

/-- Claim C9: for attempt number `n ≥ 1` within the budget, a reconnection
round started from an idle state with `n-1` prior attempts increments the
counter to `n` before the wait and waits `reconnectDelay n =
min(1000 * 2^(n-1), 30000)` ms — 1000 for attempt 1, 2000 for attempt 2,
16000 for attempt 5, 30000 for every attempt from 6 on; and once the counter
has reached `MAX_RECONNECTION_ATTEMPTS`, `attemptReconnection` changes no
state and starts no wait (no further automatic reconnection attempt). -/
theorem c9_reconnect_backoff (n : Nat) (h1 : 1 ≤ n) :
    (n ≤ MAX_RECONNECTION_ATTEMPTS →
      attemptReconnection ⟨false, n - 1⟩ = (⟨true, n⟩, .waiting (reconnectDelay n)))
    ∧ reconnectDelay n = min (1000 * 2 ^ (n - 1)) 30000
    ∧ reconnectDelay 1 = 1000
    ∧ reconnectDelay 2 = 2000
    ∧ reconnectDelay 5 = 16000
    ∧ (6 ≤ n → reconnectDelay n = 30000)
    ∧ (∀ s : ReconnState, MAX_RECONNECTION_ATTEMPTS ≤ s.reconnectionAttempts →
        (attemptReconnection s).1 = s ∧
        ((attemptReconnection s).2 = .skipped ∨ (attemptReconnection s).2 = .gaveUp)) := by
  refine ⟨?_, rfl, by decide, by decide, by decide, ?_, ?_⟩
  · intro hle
    unfold MAX_RECONNECTION_ATTEMPTS at hle
    have hn : n - 1 + 1 = n := by omega
    simp only [attemptReconnection]
    rw [if_neg (by simp)]
    rw [if_neg (by unfold MAX_RECONNECTION_ATTEMPTS; omega)]
    simp [hn]
  · intro h6
    have h32 : 32 ≤ 2 ^ (n - 1) := by
      calc (32 : Nat) = 2 ^ 5 := by norm_num
        _ ≤ 2 ^ (n - 1) := Nat.pow_le_pow_right (by norm_num) (by omega)
    have hmul : 1000 * 32 ≤ 1000 * 2 ^ (n - 1) := Nat.mul_le_mul_left 1000 h32
    show min (BASE_RECONNECT_DELAY * 2 ^ (n - 1)) 30000 = 30000
    simp only [BASE_RECONNECT_DELAY]
    exact Nat.min_eq_right (by omega)
  · intro s hmax
    cases hres : s.isReconnecting
    · unfold attemptReconnection
      rw [if_neg (by simp [hres])]
      rw [if_pos hmax]
      exact ⟨rfl, Or.inr rfl⟩
    · unfold attemptReconnection
      rw [if_pos (by simp [hres])]
      exact ⟨rfl, Or.inl rfl⟩

/-- Witness for C9: attempt 2 waits 2000 ms with the counter incremented to 2
before the wait; attempt 7's delay caps at 30000 ms; with the counter at the
maximum (10) nothing is started. -/
theorem c9_reconnect_backoff_witness :
    attemptReconnection ⟨false, 1⟩ = (⟨true, 2⟩, .waiting (reconnectDelay 2))
    ∧ reconnectDelay 7 = 30000
    ∧ (attemptReconnection ⟨false, 10⟩).1 = ⟨false, 10⟩
    ∧ ((attemptReconnection ⟨false, 10⟩).2 = .skipped ∨
       (attemptReconnection ⟨false, 10⟩).2 = .gaveUp) :=
  ⟨(c9_reconnect_backoff 2 (by decide)).1 (by decide),
   (c9_reconnect_backoff 7 (by decide)).2.2.2.2.2.1 (by decide),
   ((c9_reconnect_backoff 1 (by decide)).2.2.2.2.2.2 ⟨false, 10⟩ (by decide)).1,
   ((c9_reconnect_backoff 1 (by decide)).2.2.2.2.2.2 ⟨false, 10⟩ (by decide)).2⟩

/-- Claim C10: an item pending in a reachable state that is removed by
`clearQueue` before its processing starts never settles: in every state
reachable from the cleared state, the event trace contains no settlement
(completion, failure, or timeout rejection) for that item's id — in
particular, when the item's per-item timeout later fires it no longer finds
the item pending, so the timeout rejection is skipped too. -/
theorem c10_cleared_item_never_settles {s : QueueState} (hreach : Reachable s)
    {it : QueueItem} (hit : it ∈ s.queue) {t : QueueState}
    (hsteps : Relation.ReflTransGen QStep (clearQueueCall s).1 t) :
    t.events.filter (fun e => e.eid == it.id) = [] := by
  have hinv := inv_reachable hreach
  have hid : it.id ∈ queueIds s := List.mem_map.mpr ⟨it, hit, rfl⟩
  have hgone : GoneNoSettle it.id (clearQueueCall s).1 := by
    refine ⟨?_, ?_, ?_, ?_⟩
    · simp [queueIds, clearQueueCall]
    · intro h
      simp only [runningIds, clearQueueCall] at h
      exact absurd rfl (Nat.ne_of_lt (hinv.runLtQueue it.id h it.id hid))
    · simpa [clearQueueCall] using hinv.qLtNext it.id hid
    · intro e hev
      simp only [clearQueueCall] at hev
      cases he : e.isTerminal
      · cases e with
        | completed i => simp [SettleEvent.isTerminal] at he
        | failed i m => simp [SettleEvent.isTerminal] at he
        | timeoutReject i =>
          intro hcontra
          have hni := (hinv.tmoGone i hev).1
          simp only [SettleEvent.eid] at hcontra
          rw [hcontra] at hni
          exact hni hid
      · have := hinv.termLtQueue e.eid (mem_terminalIds hev he) it.id hid
        omega
  have hg := gone_star hsteps hgone
  rw [List.filter_eq_nil_iff]
  intro e hev
  have := hg.2.2.2 e hev
  simpa using this

/-- Witness for C10: after one accepted submit, clearing the queue removes
the pending item (id 0); at the cleared state itself the trace has no
settlement for it. -/
theorem c10_cleared_item_never_settles_witness :
    ((clearQueueCall (enqueueState ⟨1, 3, 5000, 300000⟩ 0 initState)).1).events.filter
      (fun e => e.eid == 0) = [] :=
  @c10_cleared_item_never_settles (enqueueState ⟨1, 3, 5000, 300000⟩ 0 initState)
    (Relation.ReflTransGen.single (QStep.submit initState ⟨1, 3, 5000, 300000⟩ 0 rfl))
    ⟨0, 0, 0, 3⟩ (by decide) _ Relation.ReflTransGen.refl
